import Mathlib

/-!
# SmartHealthcareDBMS: symptom matching, ranking and intake normalisation

A shallow embedding of `src/main.cpp`.

Modelling conventions
* `std::string` is a `List Char`; the only characters the code inspects are
  ASCII (comma, blank, tab, newline, carriage return, `A`..`Z`), so a
  character-level model and a byte-level model agree.
* `int` is `Int`.  Container sizes are assumed to stay below `2^31`, so the
  cast `(int)v.size()` and the counter `matches++` do not wrap.
* A finite `double` is the rational number it denotes.  The result of a
  floating-point operation is the exact result rounded to the nearest number
  with a 53-bit significand, ties to even (`round_double`).  The exponent range
  is not bounded in the model: under the size assumption above the values the
  program computes lie between `2^-25` and `2^38`, far inside the normal range,
  and the conversions of `matches` and `total` from `int` to `double` are exact.
* `std::sort` is library code.  It is modelled by a linear insertion sort
  driven by the comparator of the source; the theorems about the ranked list
  rely only on the result being an ordered permutation of the input.
-/

namespace SmartHealthcare

/-! ## Data model (main.cpp 72-77 and 259) -/

/-- The record `struct Disease` of main.cpp 72-77. -/
structure Disease where
  id : Int
  name : String
  specialization : String
  symptom_ids : List Int
deriving DecidableEq

/-- The record `struct Hit` of main.cpp 259; `score` holds the rational value
of the stored `double`. -/
structure Hit where
  disease_id : Int
  disease_name : String
  specialization : String
  score : ℚ
  match_count : Int
  total_symptoms : Int
deriving DecidableEq

/-! ## Floating-point arithmetic -/

/-- The integer nearest to `x`, the even one when `x` lies half-way between two
integers. -/
def round_half_even (x : ℚ) : Int :=
  if x - (⌊x⌋ : ℚ) < 1 / 2 then ⌊x⌋
  else if x - (⌊x⌋ : ℚ) > 1 / 2 then ⌊x⌋ + 1
  else if ⌊x⌋ % 2 = 0 then ⌊x⌋ else ⌊x⌋ + 1

/-- The `double` nearest to the rational `q` (round to nearest, ties to even):
`q` is scaled so that its integer part has 53 bits, rounded to an integer and
scaled back. -/
def round_double (q : ℚ) : ℚ :=
  if q = 0 then 0
  else (round_half_even (q / 2 ^ (Int.log 2 |q| - 52)) : ℚ) * 2 ^ (Int.log 2 |q| - 52)

/-! ## Match and rank (main.cpp 260-278) -/

/-- The test `find(input_ids.begin(), input_ids.end(), sid) != input_ids.end()`
of main.cpp 266: a linear scan for the first element equal to `sid`. -/
def find_in : List Int → Int → Bool
  | [], _ => false
  | x :: xs, sid => if x = sid then true else find_in xs sid

/-- The inner loop of main.cpp 264-267: `matches` starts at 0 and is
incremented once per entry of the disease's list that is found in `input_ids`. -/
def count_matches (input_ids : List Int) (symptom_ids : List Int) : Int :=
  symptom_ids.foldl (fun matched sid => if find_in input_ids sid then matched + 1 else matched) 0

/-- One iteration of the loop over the catalog, main.cpp 261-272.  In
`(100.0 * matches) / total` the product and the quotient are each rounded. -/
def push_hit (input_ids : List Int) (hits : List Hit) (d : Disease) : List Hit :=
  let total : Int := (d.symptom_ids.length : Int)
  if total = 0 then hits
  else
    let matched : Int := count_matches input_ids d.symptom_ids
    let score : ℚ := round_double (round_double (100 * (matched : ℚ)) / (total : ℚ))
    if matched > 0 then
      hits ++ [{ disease_id := d.id, disease_name := d.name, specialization := d.specialization,
                 score := score, match_count := matched, total_symptoms := total }]
    else hits

/-- The loop of main.cpp 260-272: the unsorted candidates. -/
def collect_hits (diseases : List Disease) (input_ids : List Int) : List Hit :=
  diseases.foldl (push_hit input_ids) []

/-- The comparator passed to `sort`, main.cpp 275-278. -/
def hit_less (a b : Hit) : Bool :=
  if a.score ≠ b.score then decide (a.score > b.score)
  else decide (a.match_count > b.match_count)

/-- Insertion step of the sort: `x` is placed in front of the first element it
must precede according to the comparator. -/
def sort_insert (x : Hit) : List Hit → List Hit
  | [] => [x]
  | y :: ys => if hit_less x y then x :: y :: ys else y :: sort_insert x ys

/-- Model of `sort(hits.begin(), hits.end(), cmp)`, main.cpp 275: elements are
taken left to right and inserted into the ordered prefix. -/
def std_sort (hits : List Hit) : List Hit :=
  hits.foldl (fun acc x => sort_insert x acc) []

/-- The ranked list the visit works with after main.cpp 278. -/
def rank (diseases : List Disease) (input_ids : List Int) : List Hit :=
  std_sort (collect_hits diseases input_ids)

/-! ## Tokenizer (main.cpp 15-27) -/

/-- Membership in the character set `" \t\n\r"` passed to `find_first_not_of`
and `find_last_not_of` at main.cpp 21-22. -/
def is_trim_char (c : Char) : Bool :=
  c = ' ' || c = '\t' || c = '\n' || c = '\r'

/-- The call `tmp.find_first_not_of(" \t\n\r")`: the index of the first
character outside the set, `none` for `string::npos`. -/
def find_first_not_of : List Char → Option Nat
  | [] => none
  | c :: cs =>
    if is_trim_char c then
      match find_first_not_of cs with
      | some k => some (k + 1)
      | none => none
    else some 0

/-- The call `tmp.find_last_not_of(" \t\n\r")`: the index of the last
character outside the set, `none` for `string::npos`. -/
def find_last_not_of : List Char → Option Nat
  | [] => none
  | c :: cs =>
    match find_last_not_of cs with
    | some k => some (k + 1)
    | none => if is_trim_char c then none else some 0

/-- The call `tmp.substr(pos, n)` for `pos ≤ tmp.size()`. -/
def substr (tmp : List Char) (pos n : Nat) : List Char :=
  (tmp.drop pos).take n

/-- The call `tmp.substr(pos)` for `pos ≤ tmp.size()`. -/
def substr_from (tmp : List Char) (pos : Nat) : List Char :=
  tmp.drop pos

/-- Body of the while loop, main.cpp 21-24: the trimmed segment is appended to
`out` when it has a character outside the set. -/
def trim_push (out : List (List Char)) (tmp : List Char) : List (List Char) :=
  match find_first_not_of tmp, find_last_not_of tmp with
  | some start, some last => out ++ [substr tmp start (last - start + 1)]
  | some start, none => out ++ [substr_from tmp start]
  | none, _ => out

/-- What `getline(ss, tmp, ',')` extracts from a stream that still has
characters: the characters before the first comma (`tmp`) and the stream left
after that comma, which is consumed; without a comma the whole stream is
extracted and nothing is left. -/
def getline_comma : List Char → List Char × List Char
  | [] => ([], [])
  | c :: cs =>
    if c = ',' then ([], cs)
    else ((c :: (getline_comma cs).1), (getline_comma cs).2)

/-- The loop `while (getline(ss, tmp, ','))` of main.cpp 19-25 on the remaining
stream `ss`: on an exhausted stream the extraction fails and the loop ends;
otherwise one segment is extracted, trimmed and possibly pushed. -/
def split_loop (ss : List Char) (out : List (List Char)) : List (List Char) :=
  match ss with
  | [] => out
  | c :: cs =>
    split_loop (getline_comma (c :: cs)).2 (trim_push out (getline_comma (c :: cs)).1)
termination_by ss.length
decreasing_by
  have hrest : ∀ l : List Char, (getline_comma l).2.length ≤ l.length := by
    intro l
    induction l with
    | nil => simp [getline_comma]
    | cons a as ih =>
      unfold getline_comma
      split
      · simp
      · simp only [List.length_cons]; omega
  have hcs := hrest cs
  simp only [getline_comma]
  split
  · simp
  · simp only [List.length_cons]
    omega

/-- The function `split_and_trim` of main.cpp 15-27. -/
def split_and_trim (s : List Char) : List (List Char) :=
  split_loop s []

/-! ## Symptom lookup (main.cpp 49-54 and 219-224) -/

/-- The C library function `tolower` in the default "C" locale, which is the
one in force (the program never calls `setlocale`): `A`..`Z` go to `a`..`z`,
every other character is unchanged. -/
def tolower (c : Char) : Char :=
  if 65 ≤ c.toNat ∧ c.toNat ≤ 90 then Char.ofNat (c.toNat + 32) else c

/-- The function `to_lower_copy` of main.cpp 50-54. -/
def to_lower_copy (s : List Char) : List Char :=
  s.map tolower

/-- The vocabulary `map<string,int> symptom_map`, as an association list. The
test `symptom_map.count(lower)` followed by `symptom_map[lower]` of main.cpp
224 is a lookup: `some id` when the key is present, `none` when it is not. -/
def map_find : List (List Char × Int) → List Char → Option Int
  | [], _ => none
  | (k, v) :: rest, key => if k = key then some v else map_find rest key

/-- Lines 223-224 for one token: the id pushed to `input_ids`, or `none` when
the lowercased token is not a key and the operator is asked instead. -/
def resolve_token (symptom_map : List (List Char × Int)) (s : List Char) : Option Int :=
  map_find symptom_map (to_lower_copy s)

/-- Lines 219-224 on an input line: the outcome of the vocabulary test for
each token of the line, against the vocabulary as it stands when the line is
read. -/
def resolve_line (symptom_map : List (List Char × Int)) (sins : List Char) : List (Option Int) :=
  (split_and_trim sins).map (resolve_token symptom_map)

/-! ### The tokenizer and the lookup as the specification words them -/

/-- A segment stripped of its leading and trailing blank, tab, newline and
carriage-return characters. -/
def spec_strip (seg : List Char) : List Char :=
  (seg.dropWhile is_trim_char).rdropWhile is_trim_char

/-- The comma-separated segments of the line, in order, without those that are
empty or consist only of blank, tab, newline and carriage-return characters,
each of the others stripped. -/
def spec_split_and_trim (s : List Char) : List (List Char) :=
  ((s.splitOn ',').filter (fun seg => !(seg.all is_trim_char))).map spec_strip

/-- The stripped segments of the line that are not empty. -/
def strip_segments (s : List Char) : List (List Char) :=
  ((s.splitOn ',').map spec_strip).filter (fun t => decide (t ≠ []))

/-- A raw token stripped and with its ASCII letters lowercased. -/
def spec_normal_form (raw : List Char) : List Char :=
  (spec_strip raw).map Char.toLower

/-! ## Selection prompts (main.cpp 295-346) -/

/-- The value `int shown = min((int)hits.size(), 5)` of main.cpp 295. -/
def shown (hits : List Hit) : Int :=
  min (hits.length : Int) 5

/-- The rows printed by the loop of main.cpp 296-302: `hits[i]` for
`i = 0 .. shown - 1`; a `none` would be an index outside `hits`. -/
def shown_rows (hits : List Hit) : List (Option Hit) :=
  (List.range (shown hits).toNat).map (fun i => hits[i]?)

/-- What happens at the disease prompt, main.cpp 308-314. -/
inductive Choice where
  /-- The `continue` of main.cpp 312: the visit ends without a prescription. -/
  | skipped : Choice
  /-- The element `hits[pick-1]` of main.cpp 314. -/
  | chosen : Hit → Choice
  /-- The index `pick-1` lies outside `hits`. -/
  | out_of_bounds : Choice
deriving DecidableEq

/-- The test and the indexing of main.cpp 310-314, for the number `pick` read
at the prompt (0 when the input was not a number). -/
def choose_disease (hits : List Hit) (pick : Int) : Choice :=
  if pick ≤ 0 ∨ pick > shown hits then Choice.skipped
  else
    match hits[(pick - 1).toNat]? with
    | some h => Choice.chosen h
    | none => Choice.out_of_bounds

/-- The C library predicate `isspace` in the "C" locale, used by `stoi` to
skip leading white space. -/
def is_space (c : Char) : Bool :=
  c = ' ' || c = '\t' || c = '\n' || c = '\x0b' || c = '\x0c' || c = '\r'

/-- The value of a run of decimal digits. -/
def digits_value (ds : List Char) : Nat :=
  ds.foldl (fun acc c => 10 * acc + (c.toNat - 48)) 0

/-- The library call `stoi(dids)`: leading white space is skipped, an optional
sign and the longest run of decimal digits are read, what follows is ignored;
`none` when it throws (no digit, or a value outside the range of `int`). -/
def stoi (s : List Char) : Option Int :=
  let t := s.dropWhile is_space
  let u := if t.head? = some '-' ∨ t.head? = some '+' then t.drop 1 else t
  let ds := u.takeWhile Char.isDigit
  if ds = [] then none
  else
    let v : Int := if t.head? = some '-' then -(digits_value ds : Int) else (digits_value ds : Int)
    if v < -2147483648 ∨ v > 2147483647 then none else some v

/-- The doctor id fixed by main.cpp 329-337, for the number `docpick` read at
the prompt (0 when the input was not a number) and the text `dids` typed at the
manual prompt, which is only shown when `docpick` is 0.  The guard keeps the
index `docpick-1` inside `doctors`. -/
def choose_doctor (doctors : List (Int × String)) (docpick : Int) (dids : List Char) : Int :=
  if docpick ≥ 1 ∧ docpick ≤ (doctors.length : Int) then
    match doctors[(docpick - 1).toNat]? with
    | some doctor => doctor.1
    | none => 0
  else if docpick = 0 then
    match stoi dids with
    | some v => v
    | none => 0
  else 0

/-- The arguments of the call `save_prescription(db, patient_id, disease_id,
doctor_id, notes)` of main.cpp 342. -/
structure Prescription where
  patient_id : Int
  disease_id : Int
  doctor_id : Int
  notes : List Char
deriving DecidableEq

/-- The visit from the disease prompt on, main.cpp 306-346: the prescription
handed to `save_prescription`, or `none` when the visit ends before that call.
`find_doctors` stands for the query `find_doctors_by_specialization(db, ·)`. -/
def visit_prescription (find_doctors : String → List (Int × String)) (patient_id : Int)
    (hits : List Hit) (pick docpick : Int) (dids notes : List Char) : Option Prescription :=
  match choose_disease hits pick with
  | Choice.chosen h =>
    some { patient_id := patient_id, disease_id := h.disease_id,
           doctor_id := choose_doctor (find_doctors h.specialization) docpick dids,
           notes := notes }
  | Choice.skipped => none
  | Choice.out_of_bounds => none

/-! ## Auxiliary notions used to state the properties -/

/-- The record pushed at main.cpp 270 for a disease, written as one value. -/
def hit_of (input_ids : List Int) (d : Disease) : Hit :=
  { disease_id := d.id, disease_name := d.name, specialization := d.specialization,
    score := round_double (round_double (100 * ((count_matches input_ids d.symptom_ids : Int) : ℚ))
      / ((d.symptom_ids.length : Int) : ℚ)),
    match_count := count_matches input_ids d.symptom_ids,
    total_symptoms := (d.symptom_ids.length : Int) }

/-- A catalog entry shares at least one symptom id with the reported list. -/
def shares_symptom (input_ids : List Int) (d : Disease) : Bool :=
  d.symptom_ids.any (fun sid => decide (sid ∈ input_ids))

/-- The order the ranked list is claimed to follow: higher score first, and on
equal score the higher (or equal) match count first. -/
def ranked_before (a b : Hit) : Prop :=
  a.score > b.score ∨ (a.score = b.score ∧ a.match_count ≥ b.match_count)

/-! ## Concrete catalogs used in the scenarios -/

def cold : Disease := { id := 1, name := "Cold", specialization := "General", symptom_ids := [1, 2, 3] }

def cold_hit : Hit :=
  { disease_id := 1, disease_name := "Cold", specialization := "General",
    score := 4691249611844267 / 140737488355328, match_count := 1, total_symptoms := 3 }


def flu : Disease := { id := 1, name := "Flu", specialization := "General", symptom_ids := [1, 2] }

def migraine : Disease :=
  { id := 2, name := "Migraine", specialization := "Neurology", symptom_ids := [3] }

def flu_hit : Hit :=
  { disease_id := 1, disease_name := "Flu", specialization := "General",
    score := 100, match_count := 2, total_symptoms := 2 }

def cold_hit_two : Hit :=
  { disease_id := 1, disease_name := "Cold", specialization := "General",
    score := 4691249611844267 / 70368744177664, match_count := 2, total_symptoms := 3 }

/-- A catalog entry whose symptom list repeats an id. -/
def repeated : Disease :=
  { id := 7, name := "Repeated", specialization := "General", symptom_ids := [1, 1] }

def repeated_hit : Hit :=
  { disease_id := 7, disease_name := "Repeated", specialization := "General",
    score := 100, match_count := 2, total_symptoms := 2 }

/-- A second entry with the same symptom list as `flu`: it ties with `flu` on
score and match count whenever both match. -/
def influenza : Disease :=
  { id := 3, name := "Influenza", specialization := "General", symptom_ids := [1, 2] }

def influenza_hit : Hit :=
  { disease_id := 3, disease_name := "Influenza", specialization := "General",
    score := 100, match_count := 2, total_symptoms := 2 }


/-- The vocabulary of the scenarios: fever → 1, cough → 2, headache → 3. -/
def vocabulary : List (List Char × Int) :=
  [("fever".toList, 1), ("cough".toList, 2), ("headache".toList, 3)]

def raw_Fever : List Char := "Fever".toList

def raw_fever : List Char := "fever".toList

def raw_FEVER_padded : List Char := " FEVER ".toList

/-- An input line with padded tokens, an inner blank, empty segments and a
trailing comma. -/
def line_example : List Char := " a b , ,,c\t,".toList

def token_a_b : List Char := "a b".toList

def token_c : List Char := "c".toList

/-- A doctor directory with one entry for every specialization. -/
def one_doctor (_specialization : String) : List (Int × String) :=
  [(10, "Dr A")]

def manual_seven : List Char := "7".toList

def some_notes : List Char := "rest".toList

/-! ## Lemmas on the match loop -/

theorem find_in_iff (l : List Int) (sid : Int) : find_in l sid = true ↔ sid ∈ l := by
  induction l with
  | nil => simp [find_in]
  | cons x xs ih =>
    by_cases h : x = sid
    · simp [find_in, h]
    · have h2 : ¬ sid = x := fun e => h e.symm
      simp [find_in, h, h2, ih]

theorem count_foldl (input_ids : List Int) (l : List Int) (acc : Int) :
    l.foldl (fun matched sid => if find_in input_ids sid then matched + 1 else matched) acc
      = acc + ((l.filter (fun sid => decide (sid ∈ input_ids))).length : Int) := by
  induction l generalizing acc with
  | nil => simp
  | cons x xs ih =>
    by_cases h : x ∈ input_ids
    · have hf : find_in input_ids x = true := (find_in_iff _ _).2 h
      simp [List.foldl_cons, hf, h, ih]
      ring
    · have hf : find_in input_ids x = false := by
        cases hb : find_in input_ids x with
        | false => rfl
        | true => exact absurd ((find_in_iff _ _).1 hb) h
      simp [List.foldl_cons, hf, h, ih]

theorem count_matches_eq (input_ids l : List Int) :
    count_matches input_ids l = ((l.filter (fun sid => decide (sid ∈ input_ids))).length : Int) := by
  simp [count_matches, count_foldl]

theorem count_matches_nonneg (input_ids l : List Int) : 0 ≤ count_matches input_ids l := by
  rw [count_matches_eq]; exact Int.natCast_nonneg _

theorem count_matches_le (input_ids l : List Int) :
    count_matches input_ids l ≤ (l.length : Int) := by
  rw [count_matches_eq]
  exact_mod_cast List.length_filter_le _ l

theorem count_matches_pos_iff (input_ids : List Int) (d : Disease) :
    0 < count_matches input_ids d.symptom_ids ↔ shares_symptom input_ids d = true := by
  rw [count_matches_eq, shares_symptom]
  constructor
  · intro h
    have h2 : 0 < (d.symptom_ids.filter (fun sid => decide (sid ∈ input_ids))).length := by
      exact_mod_cast h
    obtain ⟨x, hx⟩ := List.exists_mem_of_length_pos h2
    rw [List.mem_filter] at hx
    exact List.any_eq_true.2 ⟨x, hx.1, hx.2⟩
  · intro h
    obtain ⟨x, hx1, hx2⟩ := List.any_eq_true.1 h
    have hx : x ∈ d.symptom_ids.filter (fun sid => decide (sid ∈ input_ids)) :=
      List.mem_filter.2 ⟨hx1, hx2⟩
    have := List.length_pos_of_mem hx
    exact_mod_cast this

theorem shares_symptom_ne_nil (input_ids : List Int) (d : Disease)
    (h : shares_symptom input_ids d = true) : d.symptom_ids ≠ [] := by
  intro e
  simp [shares_symptom, e] at h

theorem push_hit_eq (input_ids : List Int) (hits : List Hit) (d : Disease) :
    push_hit input_ids hits d
      = if shares_symptom input_ids d then hits ++ [hit_of input_ids d] else hits := by
  by_cases h : shares_symptom input_ids d = true
  · have hne := shares_symptom_ne_nil input_ids d h
    have hpos := (count_matches_pos_iff input_ids d).2 h
    have hlen : ¬ ((d.symptom_ids.length : Int) = 0) := by
      intro e
      have : d.symptom_ids.length = 0 := by exact_mod_cast e
      exact hne (List.length_eq_zero.1 this)
    simp only [push_hit, hlen, if_false, gt_iff_lt, hpos, if_true, h, hit_of]
  · have hnp : ¬ (count_matches input_ids d.symptom_ids > 0) := fun hp =>
      h ((count_matches_pos_iff input_ids d).1 hp)
    simp only [push_hit, hnp, if_false, h]
    split <;> rfl

theorem collect_foldl (input_ids : List Int) (ds : List Disease) (acc : List Hit) :
    ds.foldl (push_hit input_ids) acc
      = acc ++ (ds.filter (shares_symptom input_ids)).map (hit_of input_ids) := by
  induction ds generalizing acc with
  | nil => simp
  | cons d ds ih =>
    rw [List.foldl_cons, ih, push_hit_eq]
    by_cases h : shares_symptom input_ids d = true
    · simp [h]
    · simp [h]

theorem collect_hits_eq (ds : List Disease) (input_ids : List Int) :
    collect_hits ds input_ids
      = (ds.filter (shares_symptom input_ids)).map (hit_of input_ids) := by
  simp [collect_hits, collect_foldl]

/-! ## Lemmas on the comparator and the sort -/

theorem hit_less_false_iff (a b : Hit) : hit_less b a = false ↔ ranked_before a b := by
  unfold hit_less ranked_before
  by_cases h : b.score = a.score
  · simp only [h, ne_eq, not_true_eq_false, if_false, decide_eq_false_iff_not, gt_iff_lt,
      lt_self_iff_false, false_or, true_and, not_lt, ge_iff_le]
  · have h2 : ¬ a.score = b.score := fun e => h e.symm
    simp only [ne_eq, h, not_false_eq_true, if_true, decide_eq_false_iff_not, gt_iff_lt, not_lt,
      h2, false_and, or_false]
    constructor
    · intro hle
      exact lt_of_le_of_ne hle h
    · intro hlt
      exact le_of_lt hlt

theorem hit_less_true_imp (a b : Hit) (h : hit_less a b = true) : ranked_before a b := by
  unfold hit_less at h
  unfold ranked_before
  by_cases hs : a.score = b.score
  · simp only [hs, ne_eq, not_true_eq_false, if_false, decide_eq_true_eq] at h
    exact Or.inr ⟨hs, le_of_lt h⟩
  · simp only [ne_eq, hs, not_false_eq_true, if_true, decide_eq_true_eq] at h
    exact Or.inl h

theorem ranked_before_trans (a b c : Hit) (hab : ranked_before a b) (hbc : ranked_before b c) :
    ranked_before a c := by
  unfold ranked_before at *
  rcases hab with h1 | ⟨h1, h1m⟩
  · rcases hbc with h2 | ⟨h2, _⟩
    · exact Or.inl (lt_trans h2 h1)
    · exact Or.inl (by rw [← h2]; exact h1)
  · rcases hbc with h2 | ⟨h2, h2m⟩
    · exact Or.inl (by rw [h1]; exact h2)
    · exact Or.inr ⟨h1.trans h2, le_trans h2m h1m⟩

theorem sort_insert_perm (x : Hit) (l : List Hit) : (sort_insert x l).Perm (x :: l) := by
  induction l with
  | nil => simp [sort_insert]
  | cons y ys ih =>
    unfold sort_insert
    by_cases h : hit_less x y = true
    · simp [h]
    · simp only [h, Bool.false_eq_true, if_false]
      exact (List.Perm.cons y ih).trans (List.Perm.swap x y ys)

theorem sort_insert_sorted (x : Hit) (l : List Hit) (hl : l.Pairwise ranked_before) :
    (sort_insert x l).Pairwise ranked_before := by
  induction l with
  | nil => simp [sort_insert]
  | cons y ys ih =>
    rw [List.pairwise_cons] at hl
    unfold sort_insert
    by_cases h : hit_less x y = true
    · simp only [h, if_true]
      refine List.pairwise_cons.2 ⟨?_, List.pairwise_cons.2 hl⟩
      intro z hz
      rcases List.mem_cons.1 hz with rfl | hz
      · exact hit_less_true_imp _ _ h
      · exact ranked_before_trans _ _ _ (hit_less_true_imp _ _ h) (hl.1 z hz)
    · simp only [h, Bool.false_eq_true, if_false]
      have hf : hit_less x y = false := by
        cases hb : hit_less x y with
        | false => rfl
        | true => exact absurd hb h
      refine List.pairwise_cons.2 ⟨?_, ih hl.2⟩
      intro z hz
      rcases List.mem_cons.1 ((sort_insert_perm x ys).mem_iff.1 hz) with rfl | hz
      · exact (hit_less_false_iff _ _).1 hf
      · exact hl.1 z hz

theorem sort_foldl_perm (l acc : List Hit) :
    (l.foldl (fun acc x => sort_insert x acc) acc).Perm (acc ++ l) := by
  induction l generalizing acc with
  | nil => simp
  | cons x xs ih =>
    rw [List.foldl_cons]
    refine (ih _).trans ?_
    refine ((sort_insert_perm x acc).append_right xs).trans ?_
    exact List.perm_middle.symm

theorem sort_foldl_sorted (l acc : List Hit) (hacc : acc.Pairwise ranked_before) :
    (l.foldl (fun acc x => sort_insert x acc) acc).Pairwise ranked_before := by
  induction l generalizing acc with
  | nil => simpa using hacc
  | cons x xs ih =>
    rw [List.foldl_cons]
    exact ih _ (sort_insert_sorted x acc hacc)

theorem std_sort_perm (l : List Hit) : (std_sort l).Perm l := by
  simpa [std_sort] using sort_foldl_perm l []

theorem std_sort_sorted (l : List Hit) : (std_sort l).Pairwise ranked_before :=
  sort_foldl_sorted l [] List.Pairwise.nil

theorem mem_rank_iff (ds : List Disease) (input_ids : List Int) (h : Hit) :
    h ∈ rank ds input_ids ↔ ∃ d ∈ ds, shares_symptom input_ids d = true ∧ hit_of input_ids d = h := by
  unfold rank
  rw [(std_sort_perm _).mem_iff, collect_hits_eq, List.mem_map]
  constructor
  · rintro ⟨d, hd, rfl⟩
    rw [List.mem_filter] at hd
    exact ⟨d, hd.1, hd.2, rfl⟩
  · rintro ⟨d, hd, hs, rfl⟩
    exact ⟨d, List.mem_filter.2 ⟨hd, hs⟩, rfl⟩

theorem shares_symptom_iff (input_ids : List Int) (d : Disease) :
    shares_symptom input_ids d = true ↔ ∃ sid ∈ d.symptom_ids, sid ∈ input_ids := by
  simp [shares_symptom]

theorem count_matches_congr (r₁ r₂ l : List Int) (h : ∀ x, x ∈ r₁ ↔ x ∈ r₂) :
    count_matches r₁ l = count_matches r₂ l := by
  rw [count_matches_eq, count_matches_eq]
  have : (fun sid => decide (sid ∈ r₁)) = (fun sid => decide (sid ∈ r₂)) := by
    funext sid
    simp [h sid]
  rw [this]

/-! ## Lemmas on rounding -/

theorem round_half_even_err (x : ℚ) : |((round_half_even x : Int) : ℚ) - x| ≤ 1 / 2 := by
  have h1 := Int.floor_le x
  have h2 := Int.lt_floor_add_one x
  unfold round_half_even
  split_ifs <;> (push_cast; rw [abs_le]; constructor <;> linarith)

theorem round_half_even_intCast (m : Int) : round_half_even (m : ℚ) = m := by
  unfold round_half_even
  simp

theorem round_double_err (q : ℚ) (hq : 0 < q) : |round_double q - q| ≤ q / 2 ^ 53 := by
  unfold round_double
  rw [if_neg hq.ne', abs_of_pos hq]
  have hP : (2 : ℚ) ^ Int.log 2 q ≤ q := by
    have := Int.zpow_log_le_self (b := 2) (by norm_num) hq
    simpa using this
  have hs : (0 : ℚ) < 2 ^ (Int.log 2 q - 52) := zpow_pos (by norm_num) _
  have hse : (2 : ℚ) ^ (Int.log 2 q - 52) = 2 ^ Int.log 2 q / 2 ^ 52 := by
    rw [zpow_sub₀ (by norm_num)]
    norm_num
  have herr := round_half_even_err (q / 2 ^ (Int.log 2 q - 52))
  have hre : ((round_half_even (q / 2 ^ (Int.log 2 q - 52)) : Int) : ℚ) * 2 ^ (Int.log 2 q - 52) - q
      = (((round_half_even (q / 2 ^ (Int.log 2 q - 52)) : Int) : ℚ) - q / 2 ^ (Int.log 2 q - 52))
        * 2 ^ (Int.log 2 q - 52) := by
    field_simp
  rw [hre, abs_mul, abs_of_pos hs]
  calc |((round_half_even (q / 2 ^ (Int.log 2 q - 52)) : Int) : ℚ) - q / 2 ^ (Int.log 2 q - 52)|
          * 2 ^ (Int.log 2 q - 52)
        ≤ 1 / 2 * 2 ^ (Int.log 2 q - 52) := mul_le_mul_of_nonneg_right herr hs.le
    _ = 2 ^ Int.log 2 q / 2 ^ 53 := by rw [hse]; ring
    _ ≤ q / 2 ^ 53 := div_le_div_of_nonneg_right hP (by norm_num)

theorem round_double_natCast (n : ℕ) (hn : n < 2 ^ 53) : round_double (n : ℚ) = n := by
  rcases Nat.eq_zero_or_pos n with rfl | hpos
  · simp [round_double]
  · unfold round_double
    have hq : (0 : ℚ) < n := by exact_mod_cast hpos
    rw [if_neg hq.ne', abs_of_pos hq, Int.log_natCast]
    have hL : Nat.log 2 n < 53 := Nat.log_lt_of_lt_pow hpos.ne' hn
    obtain ⟨k, hk⟩ : ∃ k : ℕ, (Nat.log 2 n : Int) - 52 = -(k : Int) :=
      ⟨52 - Nat.log 2 n, by omega⟩
    rw [hk, zpow_neg, zpow_natCast, div_inv_eq_mul]
    have hc : (n : ℚ) * 2 ^ k = (((n * 2 ^ k : ℕ) : Int) : ℚ) := by push_cast; rfl
    rw [hc, round_half_even_intCast]
    push_cast
    field_simp

theorem hit_of_score (input_ids : List Int) (d : Disease) (hsize : d.symptom_ids.length < 2 ^ 31) :
    (hit_of input_ids d).score
      = round_double (100 * ((hit_of input_ids d).match_count : ℚ)
          / ((hit_of input_ids d).total_symptoms : ℚ)) := by
  simp only [hit_of]
  rw [count_matches_eq]
  have hle := List.length_filter_le (fun sid => decide (sid ∈ input_ids)) d.symptom_ids
  have hc : (100 : ℚ) * (((d.symptom_ids.filter (fun sid => decide (sid ∈ input_ids))).length : Int) : ℚ)
      = ((100 * (d.symptom_ids.filter (fun sid => decide (sid ∈ input_ids))).length : ℕ) : ℚ) := by
    push_cast; rfl
  rw [hc, round_double_natCast _ (by omega)]

theorem round_double_quotient_exact (m t : Int) (hm : 0 ≤ m) (ht : 0 < t) (hmt : m ≤ t)
    (hdvd : t ∣ 100 * m) :
    round_double (100 * (m : ℚ) / (t : ℚ)) = 100 * (m : ℚ) / (t : ℚ) := by
  obtain ⟨c, hc⟩ := hdvd
  have hc0 : 0 ≤ c := by
    by_contra hneg
    have : t * c < 0 := mul_neg_of_pos_of_neg ht (by omega)
    omega
  have hc100 : c ≤ 100 := by
    by_contra hbig
    have h1 : t * 101 ≤ t * c := mul_le_mul_of_nonneg_left (by omega) ht.le
    omega
  have hq : 100 * (m : ℚ) / (t : ℚ) = ((c.toNat : ℕ) : ℚ) := by
    have ht' : (t : ℚ) ≠ 0 := by exact_mod_cast ht.ne'
    have hcq : (100 : ℚ) * (m : ℚ) = (t : ℚ) * (c : ℚ) := by exact_mod_cast hc
    have hcn : ((c.toNat : ℕ) : ℚ) = (c : ℚ) := by
      have : ((c.toNat : ℕ) : Int) = c := Int.toNat_of_nonneg hc0
      exact_mod_cast this
    rw [hcn, hcq]
    field_simp
  rw [hq]
  exact round_double_natCast _ (by omega)

/-! ## Lemmas on trimming -/

theorem find_first_not_of_eq_none (l : List Char) :
    find_first_not_of l = none ↔ ∀ c ∈ l, is_trim_char c = true := by
  induction l with
  | nil => simp [find_first_not_of]
  | cons c cs ih =>
    unfold find_first_not_of
    by_cases hc : is_trim_char c = true
    · simp only [hc, if_true, List.mem_cons, forall_eq_or_imp, true_and]
      rw [← ih]
      cases find_first_not_of cs <;> simp
    · simp [hc]

theorem find_first_not_of_drop (l : List Char) (k : Nat) (h : find_first_not_of l = some k) :
    l.drop k = l.dropWhile is_trim_char := by
  induction l generalizing k with
  | nil => simp [find_first_not_of] at h
  | cons c cs ih =>
    unfold find_first_not_of at h
    by_cases hc : is_trim_char c = true
    · simp only [hc, if_true] at h
      cases hk : find_first_not_of cs with
      | none => simp [hk] at h
      | some k' =>
        simp only [hk, Option.some.injEq] at h
        subst h
        rw [List.drop_succ_cons, ih k' hk, List.dropWhile_cons_of_pos hc]
    · simp only [hc, Bool.false_eq_true, if_false, Option.some.injEq] at h
      subst h
      rw [List.drop_zero, List.dropWhile_cons_of_neg hc]

theorem find_last_not_of_eq_none (l : List Char) :
    find_last_not_of l = none ↔ ∀ c ∈ l, is_trim_char c = true := by
  induction l with
  | nil => simp [find_last_not_of]
  | cons c cs ih =>
    unfold find_last_not_of
    cases hk : find_last_not_of cs with
    | some k =>
      have hne : ¬ ∀ c ∈ cs, is_trim_char c = true := fun hall => by
        rw [ih.2 hall] at hk; cases hk
      simp only [List.mem_cons, forall_eq_or_imp]
      constructor
      · intro h; cases h
      · intro h; exact absurd h.2 hne
    | none =>
      have hall := ih.1 hk
      by_cases hc : is_trim_char c = true
      · simp only [hc, if_true, List.mem_cons, forall_eq_or_imp, true_and, true_iff]
        exact hall
      · simp [hc]

theorem rdropWhile_cons (p : Char → Bool) (c : Char) (cs : List Char) :
    (c :: cs).rdropWhile p
      = if cs.rdropWhile p = [] then (if p c then [] else [c]) else c :: cs.rdropWhile p := by
  simp only [List.rdropWhile, List.reverse_cons, List.dropWhile_append, List.reverse_eq_nil_iff]
  by_cases h : List.dropWhile p cs.reverse = []
  · simp only [h, List.isEmpty_nil, if_true, List.dropWhile_cons, List.dropWhile_nil]
    split <;> simp
  · have h2 : (List.dropWhile p cs.reverse).isEmpty = false := by
      cases hd : List.dropWhile p cs.reverse with
      | nil => exact absurd hd h
      | cons _ _ => rfl
    simp [h, h2]

theorem find_last_not_of_take (l : List Char) (k : Nat) (h : find_last_not_of l = some k) :
    l.take (k + 1) = l.rdropWhile is_trim_char := by
  induction l generalizing k with
  | nil => simp [find_last_not_of] at h
  | cons c cs ih =>
    unfold find_last_not_of at h
    rw [rdropWhile_cons]
    cases hk : find_last_not_of cs with
    | some k' =>
      simp only [hk, Option.some.injEq] at h
      subst h
      have hne : cs.rdropWhile is_trim_char ≠ [] := by
        intro he
        rw [List.rdropWhile_eq_nil_iff] at he
        rw [(find_last_not_of_eq_none cs).2 he] at hk
        cases hk
      rw [if_neg hne, List.take_succ_cons, ih k' hk]
    | none =>
      have hall := (find_last_not_of_eq_none cs).1 hk
      have he : cs.rdropWhile is_trim_char = [] := List.rdropWhile_eq_nil_iff.2 hall
      simp only [hk] at h
      by_cases hc : is_trim_char c = true
      · simp [hc] at h
      · simp only [hc, Bool.false_eq_true, if_false, Option.some.injEq] at h
        subst h
        simp [he, hc]

theorem find_last_not_of_drop (l : List Char) (s e : Nat)
    (hs : find_first_not_of l = some s) (he : find_last_not_of l = some e) :
    s ≤ e ∧ find_last_not_of (l.drop s) = some (e - s) := by
  induction l generalizing s e with
  | nil => simp [find_first_not_of] at hs
  | cons c cs ih =>
    unfold find_first_not_of at hs
    by_cases hc : is_trim_char c = true
    · simp only [hc, if_true] at hs
      cases hk : find_first_not_of cs with
      | none => simp [hk] at hs
      | some s' =>
        simp only [hk, Option.some.injEq] at hs
        subst hs
        unfold find_last_not_of at he
        cases hl : find_last_not_of cs with
        | none =>
          have hall := (find_last_not_of_eq_none cs).1 hl
          rw [(find_first_not_of_eq_none cs).2 hall] at hk
          cases hk
        | some e' =>
          simp only [hl, Option.some.injEq] at he
          subst he
          obtain ⟨h1, h2⟩ := ih s' e' hk hl
          refine ⟨by omega, ?_⟩
          rw [List.drop_succ_cons, h2]
          congr 1
          omega
    · simp only [hc, Bool.false_eq_true, if_false, Option.some.injEq] at hs
      subst hs
      exact ⟨Nat.zero_le _, by simpa using he⟩

theorem spec_strip_eq_nil_iff (tmp : List Char) :
    spec_strip tmp = [] ↔ ∀ c ∈ tmp, is_trim_char c = true := by
  unfold spec_strip
  rw [List.rdropWhile_eq_nil_iff]
  constructor
  · intro h
    by_contra hne
    have hd : tmp.dropWhile is_trim_char ≠ [] := by
      intro e
      exact hne (List.dropWhile_eq_nil_iff.1 e)
    have h1 := List.head_dropWhile_not is_trim_char tmp hd
    have h2 := h _ (List.head_mem hd)
    rw [h1] at h2
    cases h2
  · intro h
    rw [List.dropWhile_eq_nil_iff.2 h]
    intro x hx
    cases hx

theorem trim_push_eq (out : List (List Char)) (tmp : List Char) :
    trim_push out tmp = if spec_strip tmp = [] then out else out ++ [spec_strip tmp] := by
  unfold trim_push
  cases hs : find_first_not_of tmp with
  | none =>
    have hall := (find_first_not_of_eq_none tmp).1 hs
    simp [(spec_strip_eq_nil_iff tmp).2 hall]
  | some s =>
    have hnall : ¬ ∀ c ∈ tmp, is_trim_char c = true := by
      intro hall
      rw [(find_first_not_of_eq_none tmp).2 hall] at hs
      cases hs
    have hne : spec_strip tmp ≠ [] := fun e => hnall ((spec_strip_eq_nil_iff tmp).1 e)
    cases he : find_last_not_of tmp with
    | none => exact absurd ((find_last_not_of_eq_none tmp).1 he) hnall
    | some e =>
      obtain ⟨_, h2⟩ := find_last_not_of_drop tmp s e hs he
      have h3 := find_last_not_of_take _ _ h2
      rw [find_first_not_of_drop tmp s hs] at h3
      simp only [if_neg hne, substr]
      rw [find_first_not_of_drop tmp s hs, h3, spec_strip]

/-! ## Lemmas on the split loop -/

theorem getline_comma_rest_length (cs : List Char) :
    (getline_comma cs).2.length ≤ cs.length := by
  induction cs with
  | nil => simp [getline_comma]
  | cons c cs ih =>
    unfold getline_comma
    split
    · simp
    · simp only [List.length_cons]; omega

theorem getline_comma_no_comma (s : List Char) (h : ',' ∉ s) :
    getline_comma s = (s, []) := by
  induction s with
  | nil => rfl
  | cons c cs ih =>
    have hc : ¬ c = ',' := fun e => h (by simp [e])
    have hcs : ',' ∉ cs := fun e => h (List.mem_cons_of_mem _ e)
    unfold getline_comma
    simp [hc, ih hcs]

theorem getline_comma_fst_no_comma (s : List Char) : ',' ∉ (getline_comma s).1 := by
  induction s with
  | nil => simp [getline_comma]
  | cons c cs ih =>
    unfold getline_comma
    by_cases hc : c = ','
    · simp [hc]
    · simp only [hc, if_false, List.mem_cons, not_or]
      exact ⟨fun e => hc e.symm, ih⟩

theorem splitOn_eq_getline (s : List Char) :
    s.splitOn ',' = (getline_comma s).1 ::
      (if ',' ∈ s then (getline_comma s).2.splitOn ',' else []) := by
  induction s with
  | nil => simp [getline_comma, List.splitOn]
  | cons c cs ih =>
    unfold List.splitOn at ih ⊢
    rw [List.splitOnP_cons]
    by_cases hc : c = ','
    · subst hc
      simp [getline_comma]
    · have hb : (c == ',') = false := by simpa using hc
      have hm : (',' ∈ c :: cs) ↔ ',' ∈ cs := by
        simp only [List.mem_cons]
        constructor
        · rintro (h | h)
          · exact absurd h.symm hc
          · exact h
        · exact Or.inr
      simp only [hb, Bool.false_eq_true, if_false, ih, List.modifyHead_cons, getline_comma, hc, hm]

theorem getline_comma_rest_lt (c : Char) (cs : List Char) :
    (getline_comma (c :: cs)).2.length < (c :: cs).length := by
  have h1 := getline_comma_rest_length cs
  unfold getline_comma
  split
  · simp
  · simp only [List.length_cons]; omega

theorem mem_splitOn_no_comma_aux (n : Nat) :
    ∀ s seg : List Char, s.length ≤ n → seg ∈ s.splitOn ',' → ',' ∉ seg := by
  induction n with
  | zero =>
    intro s seg hs h
    have : s = [] := List.length_eq_zero.1 (Nat.le_zero.1 hs)
    subst this
    simp [List.splitOn] at h
    subst h
    simp
  | succ n ih =>
    intro s seg hs h
    rw [splitOn_eq_getline] at h
    rcases List.mem_cons.1 h with rfl | h
    · exact getline_comma_fst_no_comma s
    · by_cases hc : ',' ∈ s
      · rw [if_pos hc] at h
        cases s with
        | nil => cases hc
        | cons c cs =>
          have hlen := getline_comma_rest_lt c cs
          exact ih _ seg (by simp only [List.length_cons] at hlen hs; omega) h
      · rw [if_neg hc] at h
        cases h

theorem mem_splitOn_no_comma (s seg : List Char) (h : seg ∈ s.splitOn ',') : ',' ∉ seg :=
  mem_splitOn_no_comma_aux s.length s seg (Nat.le_refl _) h

theorem spec_split_cons (seg : List Char) (segs : List (List Char)) :
    ((seg :: segs).map spec_strip).filter (fun t => decide (t ≠ []))
      = (if spec_strip seg = [] then [] else [spec_strip seg])
        ++ (segs.map spec_strip).filter (fun t => decide (t ≠ [])) := by
  by_cases h : spec_strip seg = []
  · simp [h]
  · simp [h]

theorem split_loop_eq_aux (n : Nat) :
    ∀ (s : List Char) (out : List (List Char)), s.length ≤ n →
      split_loop s out = out ++ strip_segments s := by
  induction n with
  | zero =>
    intro s out hs
    have : s = [] := List.length_eq_zero.1 (Nat.le_zero.1 hs)
    subst this
    unfold split_loop
    simp [strip_segments, List.splitOn, spec_strip]
  | succ n ih =>
    intro s out hs
    cases s with
    | nil =>
      unfold split_loop
      simp [strip_segments, List.splitOn, spec_strip]
    | cons c cs =>
      have hlen := getline_comma_rest_lt c cs
      have hle : (getline_comma (c :: cs)).2.length ≤ n := by
        simp only [List.length_cons] at hlen hs; omega
      rw [split_loop, ih _ _ hle, trim_push_eq]
      unfold strip_segments
      rw [splitOn_eq_getline (c :: cs), spec_split_cons]
      by_cases hc : ',' ∈ c :: cs
      · rw [if_pos hc]
        split <;> simp
      · rw [if_neg hc, getline_comma_no_comma _ hc]
        simp only [List.splitOn, List.splitOnP_nil, List.map_cons, List.map_nil]
        have h0 : spec_strip [] = [] := by simp [spec_strip]
        simp only [h0]
        split <;> simp

theorem split_loop_eq (s : List Char) (out : List (List Char)) :
    split_loop s out = out ++ strip_segments s :=
  split_loop_eq_aux s.length s out (Nat.le_refl _)

theorem spec_split_and_trim_eq (s : List Char) : spec_split_and_trim s = strip_segments s := by
  unfold spec_split_and_trim strip_segments
  rw [List.filter_map]
  congr 2
  funext seg
  simp only [Function.comp]
  by_cases h : ∀ c ∈ seg, is_trim_char c = true
  · have h1 := (spec_strip_eq_nil_iff seg).2 h
    have h2 : seg.all is_trim_char = true := List.all_eq_true.2 h
    simp [h1, h2]
  · have h1 : spec_strip seg ≠ [] := fun e => h ((spec_strip_eq_nil_iff seg).1 e)
    have h2 : seg.all is_trim_char = false := by
      cases hb : seg.all is_trim_char with
      | false => rfl
      | true => exact absurd (List.all_eq_true.1 hb) h
    simp [h1, h2]

theorem split_and_trim_eq (s : List Char) : split_and_trim s = strip_segments s := by
  simp [split_and_trim, split_loop_eq]

theorem strip_segments_no_comma (raw : List Char) (h : ',' ∉ raw) :
    strip_segments raw = if spec_strip raw = [] then [] else [spec_strip raw] := by
  unfold strip_segments
  have hs : raw.splitOn ',' = [raw] := by
    unfold List.splitOn
    apply List.splitOnP_eq_single
    intro x hx hp
    have : x = ',' := by simpa using hp
    subst this
    exact h hx
  rw [hs]
  by_cases he : spec_strip raw = []
  · simp [he]
  · simp [he]

theorem tolower_eq_toLower : tolower = Char.toLower := by
  funext c
  rfl

theorem rdropWhile_append_rtakeWhile (p : Char → Bool) (l : List Char) :
    l.rdropWhile p ++ l.rtakeWhile p = l := by
  have h := List.takeWhile_append_dropWhile p l.reverse
  have h2 := congrArg List.reverse h
  rw [List.reverse_append, List.reverse_reverse] at h2
  exact h2

theorem spec_strip_decompose (seg : List Char) :
    ∃ pre post : List Char, seg = pre ++ spec_strip seg ++ post ∧
      (∀ c ∈ pre, is_trim_char c = true) ∧ (∀ c ∈ post, is_trim_char c = true) := by
  refine ⟨seg.takeWhile is_trim_char, (seg.dropWhile is_trim_char).rtakeWhile is_trim_char,
    ?_, ?_, ?_⟩
  · unfold spec_strip
    rw [List.append_assoc, rdropWhile_append_rtakeWhile, List.takeWhile_append_dropWhile]
  · intro c hc
    exact (List.mem_takeWhile_imp hc)
  · intro c hc
    exact List.mem_rtakeWhile_imp hc

theorem spec_strip_head (seg : List Char) (c : Char) (h : (spec_strip seg).head? = some c) :
    is_trim_char c = false := by
  have hne : spec_strip seg ≠ [] := by
    intro e; rw [e] at h; cases h
  have hd : seg.dropWhile is_trim_char ≠ [] := by
    intro e
    apply hne
    unfold spec_strip
    rw [e]; simp
  have hpre : spec_strip seg <+: seg.dropWhile is_trim_char :=
    List.rdropWhile_prefix is_trim_char (seg.dropWhile is_trim_char)
  obtain ⟨t, ht⟩ := hpre
  have h1 := List.head_dropWhile_not is_trim_char seg hd
  have h2 : (seg.dropWhile is_trim_char).head? = some c := by
    rw [← ht]
    cases hs : spec_strip seg with
    | nil => exact absurd hs hne
    | cons a as =>
      rw [hs] at h
      simpa using h
  rw [List.head?_eq_head hd] at h2
  cases h2
  exact h1

theorem spec_strip_last (seg : List Char) (c : Char) (h : (spec_strip seg).getLast? = some c) :
    is_trim_char c = false := by
  have hne : spec_strip seg ≠ [] := by
    intro e; rw [e] at h; cases h
  have h1 := List.rdropWhile_last_not (p := is_trim_char) (l := seg.dropWhile is_trim_char) hne
  rw [List.getLast?_eq_getLast _ hne] at h
  cases h
  simpa using h1

/-! ## Claims on the ranked list -/

/-- C1 as stated fails: for Cold `[1,2,3]` and the reported list `[1]` the
result has match count 1 and total 3, and its score is the double
`4691249611844267 / 2^47` (printed 33.333333333333336), which is not the
rational `100 * 1 / 3`. -/
theorem cold_score_is_rounded :
    rank [cold] [1] = [cold_hit] ∧
    cold_hit.match_count = 1 ∧ cold_hit.total_symptoms = 3 ∧
    cold_hit.score = 4691249611844267 / 140737488355328 ∧
    cold_hit.score ≠ 100 * (cold_hit.match_count : ℚ) / (cold_hit.total_symptoms : ℚ) := by
  refine ⟨by decide!, rfl, rfl, rfl, ?_⟩
  simp only [cold_hit]
  norm_num

/-- C1 (as amended): when every symptom list of the catalog has fewer than
`2^31` entries, every result of the ranked output comes from a catalog entry,
its total is the length of that entry's symptom list,
`1 ≤ match_count ≤ total_symptoms`, and its score is the double nearest to
`100 * match_count / total_symptoms`: it differs from that rational by at most
the fraction `2^-53` of it, and equals it when `total_symptoms` divides
`100 * match_count`. -/
theorem rank_counts_and_rounded_score (diseases : List Disease) (input_ids : List Int)
    (hsize : ∀ d ∈ diseases, d.symptom_ids.length < 2 ^ 31)
    (h : Hit) (hh : h ∈ rank diseases input_ids) :
    (∃ d ∈ diseases, h.disease_id = d.id ∧ h.disease_name = d.name ∧
      h.specialization = d.specialization ∧
      h.match_count = count_matches input_ids d.symptom_ids ∧
      h.total_symptoms = (d.symptom_ids.length : Int)) ∧
    1 ≤ h.match_count ∧ h.match_count ≤ h.total_symptoms ∧
    h.score = round_double (100 * (h.match_count : ℚ) / (h.total_symptoms : ℚ)) ∧
    |h.score - 100 * (h.match_count : ℚ) / (h.total_symptoms : ℚ)|
      ≤ 100 * (h.match_count : ℚ) / (h.total_symptoms : ℚ) / 2 ^ 53 ∧
    (h.total_symptoms ∣ 100 * h.match_count →
      h.score = 100 * (h.match_count : ℚ) / (h.total_symptoms : ℚ)) := by
  obtain ⟨d, hd, hs, rfl⟩ := (mem_rank_iff _ _ _).1 hh
  have hpos : 0 < count_matches input_ids d.symptom_ids := (count_matches_pos_iff input_ids d).2 hs
  have hle : count_matches input_ids d.symptom_ids ≤ (d.symptom_ids.length : Int) :=
    count_matches_le _ _
  have hscore := hit_of_score input_ids d (hsize d hd)
  have hm : (hit_of input_ids d).match_count = count_matches input_ids d.symptom_ids := rfl
  have ht : (hit_of input_ids d).total_symptoms = (d.symptom_ids.length : Int) := rfl
  have hqpos : (0 : ℚ) < 100 * ((hit_of input_ids d).match_count : ℚ)
      / ((hit_of input_ids d).total_symptoms : ℚ) := by
    rw [hm, ht]
    have h1 : (0 : ℚ) < (count_matches input_ids d.symptom_ids : ℚ) := by exact_mod_cast hpos
    have h2 : (0 : ℚ) < ((d.symptom_ids.length : Int) : ℚ) := by
      have : (0 : Int) < (d.symptom_ids.length : Int) := by omega
      exact_mod_cast this
    positivity
  refine ⟨⟨d, hd, rfl, rfl, rfl, rfl, rfl⟩, ?_, ?_, hscore, ?_, ?_⟩
  · rw [hm]; omega
  · rw [hm, ht]; exact hle
  · rw [hscore]
    exact round_double_err _ hqpos
  · intro hdvd
    rw [hscore]
    rw [hm, ht] at hdvd ⊢
    exact round_double_quotient_exact _ _ hpos.le (by omega) hle hdvd

/-- C1 (as amended) at a concrete input: Cold `[1,2,3]` with the reported list
`[1]` gives match count 1, total 3 and the score `round_double (100 / 3)`. -/
theorem rank_counts_and_rounded_score_witness :
    (∀ d ∈ [cold], d.symptom_ids.length < 2 ^ 31) ∧ cold_hit ∈ rank [cold] [1] ∧
    1 ≤ cold_hit.match_count ∧ cold_hit.match_count ≤ cold_hit.total_symptoms ∧
    cold_hit.score
      = round_double (100 * (cold_hit.match_count : ℚ) / (cold_hit.total_symptoms : ℚ)) :=
  have hs : ∀ d ∈ [cold], d.symptom_ids.length < 2 ^ 31 := by decide
  have hm : cold_hit ∈ rank [cold] [1] := by decide!
  have ht := rank_counts_and_rounded_score [cold] [1] hs cold_hit hm
  ⟨hs, hm, ht.2.1, ht.2.2.1, ht.2.2.2.1⟩

/-- C2: every result of the ranked output has a non-zero total (the divisor
of its score) and a non-zero match count, and is the record of a catalog entry
whose symptom list is non-empty and shares an id with the reported list; the
loop iteration for an entry with an empty list, or with no reported id in its
list, pushes nothing. -/
theorem rank_excludes_empty_and_unmatched (diseases : List Disease) (input_ids : List Int) :
    (∀ h ∈ rank diseases input_ids,
      h.total_symptoms ≠ 0 ∧ h.match_count ≠ 0 ∧
      ∃ d ∈ diseases, h = hit_of input_ids d ∧ d.symptom_ids ≠ [] ∧
        ∃ sid ∈ d.symptom_ids, sid ∈ input_ids) ∧
    (∀ (d : Disease) (hits : List Hit),
      (d.symptom_ids = [] ∨ ∀ sid ∈ d.symptom_ids, sid ∉ input_ids) →
        push_hit input_ids hits d = hits) ∧
    (∀ d : Disease,
      (d.symptom_ids = [] ∨ ∀ sid ∈ d.symptom_ids, sid ∉ input_ids) →
        hit_of input_ids d ∉ rank diseases input_ids) := by
  have key : ∀ d : Disease, (d.symptom_ids = [] ∨ ∀ sid ∈ d.symptom_ids, sid ∉ input_ids) →
      shares_symptom input_ids d = false := by
    intro d hd
    cases hb : shares_symptom input_ids d with
    | false => rfl
    | true =>
      obtain ⟨sid, h1, h2⟩ := (shares_symptom_iff _ _).1 hb
      rcases hd with hd | hd
      · rw [hd] at h1; cases h1
      · exact absurd h2 (hd sid h1)
  refine ⟨?_, ?_, ?_⟩
  · intro h hh
    obtain ⟨d, hd, hs, rfl⟩ := (mem_rank_iff _ _ _).1 hh
    have hpos := (count_matches_pos_iff input_ids d).2 hs
    have hle := count_matches_le input_ids d.symptom_ids
    refine ⟨?_, ?_, d, hd, rfl, shares_symptom_ne_nil _ _ hs, (shares_symptom_iff _ _).1 hs⟩
    · simp only [hit_of]; omega
    · simp only [hit_of]; omega
  · intro d hits hd
    rw [push_hit_eq, key d hd]
    rfl
  · intro d hd hmem
    obtain ⟨d2, _, hs, he⟩ := (mem_rank_iff _ _ _).1 hmem
    have hpos := (count_matches_pos_iff input_ids d2).2 hs
    have h0 : ¬ (0 < count_matches input_ids d.symptom_ids) := by
      intro hp
      have := (count_matches_pos_iff input_ids d).1 hp
      rw [key d hd] at this
      cases this
    have hm : (hit_of input_ids d2).match_count = (hit_of input_ids d).match_count := by rw [he]
    simp only [hit_of] at hm
    omega

/-- C3: in the ranked output, for positions `i < j` holding results `a` and
`b`, either `a.score > b.score`, or the scores are equal and
`a.match_count ≥ b.match_count`. -/
theorem rank_sorted (diseases : List Disease) (input_ids : List Int) (i j : Nat) (a b : Hit)
    (hij : i < j) (hi : (rank diseases input_ids)[i]? = some a)
    (hj : (rank diseases input_ids)[j]? = some b) :
    a.score > b.score ∨ (a.score = b.score ∧ a.match_count ≥ b.match_count) := by
  have hs : (rank diseases input_ids).Pairwise ranked_before := std_sort_sorted _
  rw [List.pairwise_iff_getElem] at hs
  obtain ⟨hi1, hi2⟩ := List.getElem?_eq_some.1 hi
  obtain ⟨hj1, hj2⟩ := List.getElem?_eq_some.1 hj
  have := hs i j hi1 hj1 hij
  rw [hi2, hj2] at this
  exact this

/-- C4 (as amended): for every disease and every reported list, the match
count is the number of entries of the disease's symptom list whose id occurs
in the reported list, that is, each id common to both lists counted once per
occurrence in the disease's list (repetitions in the reported list do not
count); when the disease's list has no repeated id it is the number of distinct
ids occurring in both lists. -/
theorem match_count_eq_inter_card (d : Disease) (input_ids : List Int) :
    count_matches input_ids d.symptom_ids
        = ((d.symptom_ids.filter (fun sid => decide (sid ∈ input_ids))).length : Int) ∧
    count_matches input_ids d.symptom_ids
        = ((∑ x in input_ids.toFinset ∩ d.symptom_ids.toFinset, d.symptom_ids.count x : ℕ) : Int) ∧
    (d.symptom_ids.Nodup →
      count_matches input_ids d.symptom_ids
        = ((input_ids.toFinset ∩ d.symptom_ids.toFinset).card : Int)) := by
  have hfin : (d.symptom_ids.filter (fun sid => decide (sid ∈ input_ids))).toFinset
      = input_ids.toFinset ∩ d.symptom_ids.toFinset := by
    ext x
    simp only [List.mem_toFinset, List.mem_filter, decide_eq_true_eq, Finset.mem_inter]
    exact And.comm
  refine ⟨count_matches_eq _ _, ?_, ?_⟩
  · rw [count_matches_eq]
    congr 1
    rw [← List.sum_toFinset_count_eq_length, hfin]
    refine Finset.sum_congr rfl ?_
    intro x hx
    rw [Finset.mem_inter, List.mem_toFinset] at hx
    exact List.count_filter (by simpa using hx.1)
  · intro hnd
    rw [count_matches_eq]
    have hnd2 : (d.symptom_ids.filter (fun sid => decide (sid ∈ input_ids))).Nodup :=
      hnd.filter _
    rw [← List.toFinset_card_of_nodup hnd2, hfin]

/-- C3 at a concrete catalog: Cold `[1,2,3]` and Flu `[1,2]` with reported
`[1,2]` rank Flu (score 100) before Cold (score 66.66666666666667, the double nearest to 200/3). -/
theorem rank_sorted_witness :
    (rank [cold, flu] [1, 2])[0]? = some flu_hit ∧
    (rank [cold, flu] [1, 2])[1]? = some cold_hit_two ∧
    (flu_hit.score > cold_hit_two.score ∨
      (flu_hit.score = cold_hit_two.score ∧ flu_hit.match_count ≥ cold_hit_two.match_count)) :=
  have h0 : (rank [cold, flu] [1, 2])[0]? = some flu_hit := by
    decide!
  have h1 : (rank [cold, flu] [1, 2])[1]? = some cold_hit_two := by
    decide!
  ⟨h0, h1, rank_sorted [cold, flu] [1, 2] 0 1 flu_hit cold_hit_two (by decide) h0 h1⟩

/-- C4 as stated fails: for a disease whose list is `[1, 1]` and the reported
list `[1]` the code computes match count 2 (and ranks the disease with match
count 2, total 2), while the two lists have exactly one id in common. -/
theorem match_count_counts_repeats :
    count_matches [1] repeated.symptom_ids = 2 ∧
    (([1] : List Int).toFinset ∩ repeated.symptom_ids.toFinset).card = 1 ∧
    rank [repeated] [1] = [repeated_hit] := by
  refine ⟨?_, ?_, ?_⟩
  · simp [count_matches, find_in, repeated]
  · simp [repeated]
  · decide!

/-- C4 (as amended) at a concrete input: Flu `[1,2]` has no repeated id; with
the reported list `[2, 2, 1, 5]` its match count is 2, the number of common ids. -/
theorem match_count_eq_inter_card_witness :
    flu.symptom_ids.Nodup ∧
    count_matches [2, 2, 1, 5] flu.symptom_ids
        = (((([2, 2, 1, 5] : List Int)).toFinset ∩ flu.symptom_ids.toFinset).card : Int) ∧
    count_matches [2, 2, 1, 5] flu.symptom_ids = 2 :=
  have hnd : flu.symptom_ids.Nodup := by simp [flu]
  ⟨hnd, (match_count_eq_inter_card flu [2, 2, 1, 5]).2.2 hnd,
    by simp [count_matches, find_in, flu]⟩

/-- C5: the ranked output is a permutation of the unsorted candidates, which
are the records of the catalog entries sharing an id with the reported list,
one per entry; Flu `[1,2]`, Migraine `[3]` with reported `[1,2]` give exactly
`[Flu: score 100, match count 2]`, and two entries tied on score and match
count are both in the output. -/
theorem rank_perm_candidates (diseases : List Disease) (input_ids : List Int) :
    (rank diseases input_ids).Perm (collect_hits diseases input_ids) ∧
    (rank diseases input_ids).Perm
      ((diseases.filter (fun d => decide (∃ sid ∈ d.symptom_ids, sid ∈ input_ids))).map
        (hit_of input_ids)) ∧
    (rank diseases input_ids).length
      = (diseases.filter (fun d => decide (∃ sid ∈ d.symptom_ids, sid ∈ input_ids))).length ∧
    rank [flu, migraine] [1, 2] = [flu_hit] ∧
    (rank [flu, migraine, influenza] [1, 2]).Perm [flu_hit, influenza_hit] := by
  have hf : (fun d : Disease => decide (∃ sid ∈ d.symptom_ids, sid ∈ input_ids))
      = shares_symptom input_ids := by
    funext d
    cases hb : shares_symptom input_ids d with
    | true => exact decide_eq_true ((shares_symptom_iff _ _).1 hb)
    | false =>
      refine decide_eq_false ?_
      intro he
      rw [(shares_symptom_iff _ _).2 he] at hb
      cases hb
  have hp : (rank diseases input_ids).Perm
      ((diseases.filter (shares_symptom input_ids)).map (hit_of input_ids)) := by
    have hq : (rank diseases input_ids).Perm (collect_hits diseases input_ids) :=
      std_sort_perm _
    rw [collect_hits_eq] at hq
    exact hq
  refine ⟨std_sort_perm _, ?_, ?_, ?_, ?_⟩
  · rw [hf]; exact hp
  · rw [hf, hp.length_eq, List.length_map]
  · decide!
  · decide!

/-- C10: two reported lists with the same members (whatever their order and
repetitions) give the same ranked output, result for result. -/
theorem rank_depends_on_id_set (diseases : List Disease) (r₁ r₂ : List Int)
    (h : ∀ x, x ∈ r₁ ↔ x ∈ r₂) : rank diseases r₁ = rank diseases r₂ := by
  have hc : ∀ l, count_matches r₁ l = count_matches r₂ l := fun l =>
    count_matches_congr r₁ r₂ l h
  have hh : hit_of r₁ = hit_of r₂ := by
    funext d
    simp only [hit_of, hc]
  have hs : shares_symptom r₁ = shares_symptom r₂ := by
    funext d
    simp only [shares_symptom, h]
  unfold rank
  rw [collect_hits_eq, collect_hits_eq, hh, hs]

/-- C10 at a concrete input: the reported lists `[1, 1, 2]` and `[2, 1]` rank
the catalog Cold, Flu, Migraine identically, Flu first. -/
theorem rank_depends_on_id_set_witness :
    (∀ x : Int, x ∈ [1, 1, 2] ↔ x ∈ [2, 1]) ∧
    rank [cold, flu, migraine] [1, 1, 2] = rank [cold, flu, migraine] [2, 1] ∧
    rank [cold, flu, migraine] [2, 1] = [flu_hit, cold_hit_two] :=
  have hm : ∀ x : Int, x ∈ [1, 1, 2] ↔ x ∈ [2, 1] := by
    intro x
    simp only [List.mem_cons, List.mem_singleton, List.not_mem_nil, or_false]
    constructor
    · rintro (h | h | h)
      · exact Or.inr h
      · exact Or.inr h
      · exact Or.inl h
    · rintro (h | h)
      · exact Or.inr (Or.inr h)
      · exact Or.inl h
  ⟨hm, rank_depends_on_id_set [cold, flu, migraine] [1, 1, 2] [2, 1] hm, by
    decide!⟩

/-! ## Claims on the tokenizer and the lookup -/

/-- C6: `split_and_trim s` is, in order, the comma-separated segments of `s`
stripped of leading and trailing blank, tab, newline and carriage-return
characters, those that are empty or made only of such characters dropped; so
every token is non-empty, has no comma, neither starts nor ends with such a
character, and is its segment minus a prefix and a suffix of such characters
(what lies inside is kept). -/
theorem split_and_trim_spec (s : List Char) :
    split_and_trim s = spec_split_and_trim s ∧
    (∀ t ∈ split_and_trim s,
      t ≠ [] ∧ ',' ∉ t ∧
      (∀ c, t.head? = some c → is_trim_char c = false) ∧
      (∀ c, t.getLast? = some c → is_trim_char c = false) ∧
      ∃ seg ∈ s.splitOn ',', ∃ pre post : List Char, seg = pre ++ t ++ post ∧
        (∀ c ∈ pre, is_trim_char c = true) ∧ (∀ c ∈ post, is_trim_char c = true)) ∧
    split_and_trim line_example = [token_a_b, token_c] := by
  refine ⟨by rw [split_and_trim_eq, spec_split_and_trim_eq], ?_, ?_⟩
  · intro t ht
    rw [split_and_trim_eq] at ht
    unfold strip_segments at ht
    rw [List.mem_filter, List.mem_map] at ht
    obtain ⟨⟨seg, hseg, rfl⟩, hne⟩ := ht
    have hne2 : spec_strip seg ≠ [] := by simpa using hne
    obtain ⟨pre, post, hdec, hpre, hpost⟩ := spec_strip_decompose seg
    refine ⟨hne2, ?_, spec_strip_head seg, spec_strip_last seg, seg, hseg, pre, post, hdec,
      hpre, hpost⟩
    intro hc
    apply mem_splitOn_no_comma s seg hseg
    rw [hdec]
    simp [hc]
  · simp [line_example, token_a_b, token_c, split_and_trim, split_loop, getline_comma, trim_push,
      find_first_not_of, find_last_not_of, substr, substr_from, is_trim_char]

/-- C7: two raw comma-free tokens that become equal after stripping and
lowercasing get the same outcome from the lookup (split, lowercase, look up in
the vocabulary): the same id, or unknown for both, whatever the vocabulary. -/
theorem resolve_line_normal_form (symptom_map : List (List Char × Int)) (raw₁ raw₂ : List Char)
    (h₁ : ',' ∉ raw₁) (h₂ : ',' ∉ raw₂) (h : spec_normal_form raw₁ = spec_normal_form raw₂) :
    resolve_line symptom_map raw₁ = resolve_line symptom_map raw₂ := by
  unfold resolve_line
  rw [split_and_trim_eq, split_and_trim_eq, strip_segments_no_comma raw₁ h₁,
    strip_segments_no_comma raw₂ h₂]
  unfold spec_normal_form at h
  by_cases he : spec_strip raw₁ = []
  · have he2 : spec_strip raw₂ = [] := by
      rw [he] at h
      exact List.map_eq_nil_iff.1 h.symm
    simp [he, he2]
  · have he2 : spec_strip raw₂ ≠ [] := by
      intro e
      rw [e] at h
      exact he (List.map_eq_nil_iff.1 h)
    simp only [he, he2, if_false, List.map_cons, List.map_nil, resolve_token, to_lower_copy,
      tolower_eq_toLower, h]

/-- C7 at concrete inputs: with the vocabulary fever → 1, cough → 2,
headache → 3, the raw tokens `Fever`, `fever` and ` FEVER ` all resolve to 1. -/
theorem resolve_line_normal_form_witness :
    ',' ∉ raw_Fever ∧ ',' ∉ raw_FEVER_padded ∧
    spec_normal_form raw_Fever = spec_normal_form raw_FEVER_padded ∧
    resolve_line vocabulary raw_Fever = resolve_line vocabulary raw_FEVER_padded ∧
    resolve_line vocabulary raw_fever = resolve_line vocabulary raw_FEVER_padded ∧
    resolve_line vocabulary raw_fever = [some 1] :=
  have c₁ : ',' ∉ raw_Fever := by decide
  have c₂ : ',' ∉ raw_FEVER_padded := by decide
  have c₃ : ',' ∉ raw_fever := by decide
  have n₁ : spec_normal_form raw_Fever = spec_normal_form raw_FEVER_padded := by decide
  have n₂ : spec_normal_form raw_fever = spec_normal_form raw_FEVER_padded := by decide
  ⟨c₁, c₂, n₁,
    resolve_line_normal_form vocabulary raw_Fever raw_FEVER_padded c₁ c₂ n₁,
    resolve_line_normal_form vocabulary raw_fever raw_FEVER_padded c₃ c₂ n₂,
    by simp [raw_fever, vocabulary, resolve_line, resolve_token, map_find, to_lower_copy, tolower,
      split_and_trim, split_loop, getline_comma, trim_push, find_first_not_of, find_last_not_of,
      substr, substr_from, is_trim_char]⟩

/-! ## Claims on the selection prompts -/

/-- C8: the number of candidates shown is `min(|hits|, 5)` and each shown row
is an element of the list; a candidate is chosen exactly when
`1 ≤ pick ≤ min(|hits|, 5)`, it is then the element at position `pick - 1`,
which exists, and its disease id is the one of the prescription; for every
other `pick` (zero, negative, above the number shown) the visit is skipped and
no prescription is recorded. -/
theorem choose_disease_spec (find_doctors : String → List (Int × String)) (patient_id : Int)
    (hits : List Hit) (pick docpick : Int) (dids notes : List Char) :
    (shown_rows hits).length = min hits.length 5 ∧
    (∀ i, i < min hits.length 5 →
      ∃ h, hits[i]? = some h ∧ (shown_rows hits)[i]? = some (some h)) ∧
    ((1 ≤ pick ∧ pick ≤ min (hits.length : Int) 5) →
      ∃ h, hits[(pick - 1).toNat]? = some h ∧ choose_disease hits pick = Choice.chosen h ∧
        visit_prescription find_doctors patient_id hits pick docpick dids notes
          = some { patient_id := patient_id, disease_id := h.disease_id,
                   doctor_id := choose_doctor (find_doctors h.specialization) docpick dids,
                   notes := notes }) ∧
    (¬ (1 ≤ pick ∧ pick ≤ min (hits.length : Int) 5) →
      choose_disease hits pick = Choice.skipped ∧
      visit_prescription find_doctors patient_id hits pick docpick dids notes = none) ∧
    choose_disease [flu_hit, cold_hit_two] 2 = Choice.chosen cold_hit_two ∧
    choose_disease [flu_hit, cold_hit_two] 3 = Choice.skipped ∧
    choose_disease [flu_hit, cold_hit_two] 0 = Choice.skipped ∧
    choose_disease [flu_hit, cold_hit_two] (-1) = Choice.skipped := by
  have hlen : (shown hits).toNat = min hits.length 5 := by
    unfold shown
    omega
  refine ⟨?_, ?_, ?_, ?_, ?_, ?_, ?_, ?_⟩
  · simp [shown_rows, hlen]
  · intro i hi
    have hi2 : i < hits.length := lt_of_lt_of_le hi (Nat.min_le_left _ _)
    refine ⟨hits[i], List.getElem?_eq_getElem hi2, ?_⟩
    unfold shown_rows
    rw [hlen, List.getElem?_map, List.getElem?_range hi]
    simp [List.getElem?_eq_getElem hi2]
  · intro hp
    have hi2 : (pick - 1).toNat < hits.length := by omega
    have hguard : ¬ (pick ≤ 0 ∨ pick > shown hits) := by
      unfold shown
      omega
    have hc : choose_disease hits pick = Choice.chosen hits[(pick - 1).toNat] := by
      unfold choose_disease
      rw [if_neg hguard, List.getElem?_eq_getElem hi2]
    refine ⟨hits[(pick - 1).toNat], List.getElem?_eq_getElem hi2, hc, ?_⟩
    unfold visit_prescription
    rw [hc]
  · intro hp
    have hguard : pick ≤ 0 ∨ pick > shown hits := by
      unfold shown
      omega
    have hc : choose_disease hits pick = Choice.skipped := by
      unfold choose_disease
      rw [if_pos hguard]
    refine ⟨hc, ?_⟩
    unfold visit_prescription
    rw [hc]
  · simp [choose_disease, shown]
  · simp [choose_disease, shown]
  · simp [choose_disease, shown]
  · simp [choose_disease, shown]

/-- C9 as stated fails: with one listed doctor and the manual text `7`, the
selection number 5 records doctor id 0, while the selection number 0 records
doctor id 7. -/
theorem out_of_range_doctor_differs_from_zero :
    choose_doctor (one_doctor "General") 5 manual_seven = 0 ∧
    choose_doctor (one_doctor "General") 0 manual_seven = 7 ∧
    visit_prescription one_doctor 1 [flu_hit] 1 5 manual_seven some_notes
      = some { patient_id := 1, disease_id := 1, doctor_id := 0, notes := some_notes } ∧
    visit_prescription one_doctor 1 [flu_hit] 1 0 manual_seven some_notes
      = some { patient_id := 1, disease_id := 1, doctor_id := 7, notes := some_notes } := by
  refine ⟨by decide, by decide, ?_, ?_⟩
  · simp [visit_prescription, choose_disease, shown, choose_doctor, one_doctor, flu_hit]
  · have h7 : stoi manual_seven = some 7 := by decide
    simp [visit_prescription, choose_disease, shown, choose_doctor, one_doctor, flu_hit, h7]

/-- C9 (as amended): a selection number that is negative or greater than the
number of listed doctors records doctor id 0, whatever text would be typed at
the manual prompt; this is the id recorded for the selection number 0 exactly
when that text does not parse as an `int` or parses to 0. -/
theorem choose_doctor_out_of_range (doctors : List (Int × String)) (docpick : Int)
    (dids : List Char) (h : docpick < 0 ∨ docpick > (doctors.length : Int)) :
    choose_doctor doctors docpick dids = 0 ∧
    (∀ (find_doctors : String → List (Int × String)) (patient_id pick : Int) (hits : List Hit)
        (notes : List Char) (c : Hit),
      choose_disease hits pick = Choice.chosen c → find_doctors c.specialization = doctors →
        visit_prescription find_doctors patient_id hits pick docpick dids notes
          = some { patient_id := patient_id, disease_id := c.disease_id, doctor_id := 0,
                   notes := notes }) ∧
    (choose_doctor doctors docpick dids = choose_doctor doctors 0 dids
      ↔ (stoi dids = none ∨ stoi dids = some 0)) := by
  have h1 : ¬ (docpick ≥ 1 ∧ docpick ≤ (doctors.length : Int)) := by omega
  have h2 : ¬ docpick = 0 := by omega
  have h0 : choose_doctor doctors docpick dids = 0 := by
    unfold choose_doctor
    rw [if_neg h1, if_neg h2]
  have hz : choose_doctor doctors 0 dids = (match stoi dids with | some v => v | none => 0) := by
    unfold choose_doctor
    have h3 : ¬ ((0 : Int) ≥ 1 ∧ (0 : Int) ≤ (doctors.length : Int)) := by omega
    rw [if_neg h3, if_pos rfl]
  refine ⟨h0, ?_, ?_⟩
  · intro find_doctors patient_id pick hits notes c hc hd
    unfold visit_prescription
    rw [hc]
    simp only [hd, h0]
  · rw [h0, hz]
    cases hs : stoi dids with
    | none => simp
    | some v =>
      simp only [Option.some.injEq, false_or, reduceCtorEq]
      exact eq_comm

/-- C9 (as amended) at a concrete input: one listed doctor, selection number
5, manual text `7`: the recorded doctor id is 0. -/
theorem choose_doctor_out_of_range_witness :
    ((5 : Int) < 0 ∨ (5 : Int) > ((one_doctor "General").length : Int)) ∧
    choose_doctor (one_doctor "General") 5 manual_seven = 0 :=
  have hr : (5 : Int) < 0 ∨ (5 : Int) > ((one_doctor "General").length : Int) := by decide
  ⟨hr, (choose_doctor_out_of_range (one_doctor "General") 5 manual_seven hr).1⟩

end SmartHealthcare
